import Mathlib

/-!
Verification of the data-shaping logic of the canteen annual-report script
(src/main.py).  Tables are embedded as lists of rows; pandas timestamp
parsing with coercion is embedded as an optional timestamp per row, and a
missing (NaN) location as an optional string.  Amounts are rationals.
-/

namespace CanteenReport

/-- Calendar date carried by a parsed 交易时间 value. -/
structure Date where
  year : Nat
  month : Nat
  day : Nat
deriving DecidableEq

/-- Parsed timestamp: date plus local clock time. -/
structure Timestamp where
  date : Date
  hour : Nat
  minute : Nat
  second : Nat
deriving DecidableEq

/-- One row of the transaction table.  The time field is none when pandas
to_datetime with coercion produced NaT; the location field is none when the
交易地点 cell is missing. -/
structure Row where
  time : Option Timestamp
  event : String
  location : Option String
  amount : ℚ
deriving DecidableEq

/-- The two transaction-event kinds that count as spending. -/
def spendingEvents : List String := ["持卡人消费", "离线码在线消费"]

/-- Rows whose 交易事件 is one of the two spending kinds (main, step 2). -/
def spendingFilter (rows : List Row) : List Row :=
  rows.filter (fun r => spendingEvents.contains r.event)

/-! Substring matching, embedding the regex 楼|天猫|学生卡成本 used by
str.contains, which on these plain tokens is substring containment. -/

/-- Whether the first character list is a prefix of the second. -/
def startsWithCh : List Char → List Char → Bool
  | [], _ => true
  | _ :: _, [] => false
  | a :: as, b :: bs => a == b && startsWithCh as bs

/-- Whether the first character list occurs inside the second. -/
def occursIn (sub : List Char) : List Char → Bool
  | [] => sub.isEmpty
  | b :: bs => startsWithCh sub (b :: bs) || occursIn sub bs

/-- Whether the pattern string occurs inside the subject string. -/
def strOccurs (pat s : String) : Bool := occursIn pat.toList s.toList

/-- The denylist tokens of preprocess_data. -/
def denylistTokens : List String := ["楼", "天猫", "学生卡成本"]

/-- Whether a location value matches the denylist regex. -/
def locationBanned (s : String) : Bool := denylistTokens.any (fun p => strOccurs p s)

/-- Row-keeping predicate of preprocess_data: str.contains with na set to
false treats a missing location as a non-match, so the row is kept. -/
def keepRow (r : Row) : Bool :=
  match r.location with
  | none => true
  | some s => ! locationBanned s

/-- preprocess_data: when the 交易地点 column exists, drop rows whose
location matches the denylist; otherwise return the table unchanged. -/
def preprocess_data (hasLocationCol : Bool) (rows : List Row) : List Row :=
  if hasLocationCol then rows.filter keepRow else rows

/-! Meal-period classification (prepare_meal_period_data). -/

/-- The four meal periods, in the fixed display order of the labels list
早饭, 午饭, 晚饭, 夜宵. -/
inductive Meal where
  | breakfast
  | lunch
  | dinner
  | night
deriving DecidableEq

/-- The display labels, in order. -/
def mealLabels : List String := ["早饭", "午饭", "晚饭", "夜宵"]

/-- Minutes since midnight, from hour and minute as in the script. -/
def minutesOfDay (t : Timestamp) : Nat := t.hour * 60 + t.minute

/-- The four half-open minute intervals given to pd.cut (right exclusive). -/
def mealIntervals : List (Nat × Nat) := [(390, 600), (600, 900), (900, 1170), (1170, 1350)]

/-- Membership of a minute value in one half-open interval. -/
def inInterval (m : Nat) (iv : Nat × Nat) : Bool := decide (iv.1 ≤ m ∧ m < iv.2)

/-- pd.cut with bins 390, 600, 900, 1170, 1350 and right set to false:
assigns the period of the half-open bin containing the minute value, or
none outside all bins. -/
def classifyMinutes (m : Nat) : Option Meal :=
  if 390 ≤ m ∧ m < 600 then some Meal.breakfast
  else if 600 ≤ m ∧ m < 900 then some Meal.lunch
  else if 900 ≤ m ∧ m < 1170 then some Meal.dinner
  else if 1170 ≤ m ∧ m < 1350 then some Meal.night
  else none

/-- A classified row: the original row, its parsed timestamp, and the
assigned 餐次 label. -/
structure CRow where
  row : Row
  time : Timestamp
  meal : Meal
deriving DecidableEq

/-- Classification of one row: rows with an unparseable timestamp are
dropped by dropna, then rows outside all bins are dropped by the second
dropna. -/
def classifyRow (r : Row) : Option CRow :=
  match r.time with
  | none => none
  | some t =>
    match classifyMinutes (minutesOfDay t) with
    | none => none
    | some m => some ⟨r, t, m⟩

/-- The classified table. -/
def classifyRows (rows : List Row) : List CRow := rows.filterMap classifyRow

/-- Rows surviving to_datetime plus dropna, with their parsed timestamps. -/
def parsedRows (rows : List Row) : List (Row × Timestamp) :=
  rows.filterMap (fun r => r.time.map (fun t => (r, t)))

/-- prepare_meal_period_data: returns the classified table, the labels and
an error string, with the two distinguished empty-data outcomes. -/
def prepare_meal_period_data (rows : List Row) :
    Option (List CRow) × Option (List String) × Option String :=
  if parsedRows rows = [] then (none, none, some "没有可用于统计的交易时间数据")
  else
    if classifyRows rows = [] then (none, some mealLabels, some "未找到 6:30-22:30 的消费记录")
    else (some (classifyRows rows), some mealLabels, none)

/-! Basic facts about the classifier. -/

lemma classifyRow_eq_some {r : Row} {c : CRow} (h : classifyRow r = some c) :
    c.row = r ∧ r.time = some c.time ∧ classifyMinutes (minutesOfDay c.time) = some c.meal := by
  unfold classifyRow at h
  split at h
  · exact absurd h (by simp)
  · rename_i t ht
    split at h
    · exact absurd h (by simp)
    · rename_i m hm
      cases h
      exact ⟨rfl, ht, hm⟩

lemma classifyRow_of_mem {rows : List Row} {c : CRow} (h : c ∈ classifyRows rows) :
    classifyRow c.row = some c := by
  obtain ⟨a, _, hfa⟩ := List.mem_filterMap.mp h
  have hrow := (classifyRow_eq_some hfa).1
  rw [hrow]
  exact hfa

lemma mem_classifyRows {rows : List Row} {c : CRow} :
    c ∈ classifyRows rows ↔ ∃ a ∈ rows, classifyRow a = some c :=
  List.mem_filterMap

/-- The interval count written as a sum of four indicator terms. -/
lemma countP_intervals (m : Nat) :
    mealIntervals.countP (fun iv => inInterval m iv) =
      (if 390 ≤ m ∧ m < 600 then 1 else 0) + (if 600 ≤ m ∧ m < 900 then 1 else 0)
        + (if 900 ≤ m ∧ m < 1170 then 1 else 0) + (if 1170 ≤ m ∧ m < 1350 then 1 else 0) := by
  simp only [mealIntervals, List.countP_cons, List.countP_nil, inInterval,
    decide_eq_true_eq]
  split_ifs <;> omega

/-- Exactness of the binning: the classifier assigns a period exactly when
the minute value lies in one of the four intervals, and the intervals are
pairwise disjoint so the count of containing intervals is then one. -/
lemma classify_isSome_iff (m : Nat) :
    (classifyMinutes m).isSome = true ↔
      mealIntervals.countP (fun iv => inInterval m iv) = 1 := by
  rw [countP_intervals]
  unfold classifyMinutes
  split_ifs <;> simp <;> omega

lemma countP_intervals_le_one (m : Nat) :
    mealIntervals.countP (fun iv => inInterval m iv) ≤ 1 := by
  rw [countP_intervals]
  split_ifs <;> omega

lemma classifyRows_map_row (l : List CRow) (h : ∀ c ∈ l, classifyRow c.row = some c) :
    classifyRows (l.map CRow.row) = l := by
  induction l with
  | nil => rfl
  | cons c cs ih =>
    have hc := h c (List.mem_cons_self c cs)
    have ih' := ih (fun d hd => h d (List.mem_cons_of_mem _ hd))
    simp only [List.map_cons, classifyRows, List.filterMap_cons, hc]
    exact congrArg (c :: ·) ih'

lemma parsedRows_map_row_ne_nil (cs : List CRow)
    (h : ∀ c ∈ cs, classifyRow c.row = some c) (hne : cs ≠ []) :
    parsedRows (cs.map CRow.row) ≠ [] := by
  cases cs with
  | nil => exact absurd rfl hne
  | cons c cs' =>
    have htime := (classifyRow_eq_some (h c (List.mem_cons_self c cs'))).2.1
    simp [parsedRows, List.filterMap_cons, htime]

/-- C1: a row with a parseable timestamp survives classification exactly
when its minutes-since-midnight lies in exactly one of the four half-open
intervals; the intervals never overlap, and the boundary minutes 389 and
1350 are excluded while 390 and 1349 are included. -/
theorem meal_period_window (rows : List Row) (r : Row) (t : Timestamp)
    (hr : r ∈ rows) (ht : r.time = some t) :
    ((∃ c ∈ classifyRows rows, c.row = r) ↔
        mealIntervals.countP (fun iv => inInterval (minutesOfDay t) iv) = 1)
    ∧ (∀ m, mealIntervals.countP (fun iv => inInterval m iv) ≤ 1)
    ∧ classifyMinutes (6 * 60 + 29) = none ∧ classifyMinutes (22 * 60 + 30) = none
    ∧ classifyMinutes (6 * 60 + 30) = some Meal.breakfast
    ∧ classifyMinutes (22 * 60 + 29) = some Meal.night := by
  refine ⟨?_, countP_intervals_le_one, by decide, by decide, by decide, by decide⟩
  rw [← classify_isSome_iff]
  constructor
  · rintro ⟨c, hc, hcr⟩
    obtain ⟨-, htime, hmeal⟩ := classifyRow_eq_some (classifyRow_of_mem hc)
    rw [hcr, ht] at htime
    cases htime
    rw [hmeal]
    rfl
  · intro hs
    obtain ⟨m, hm⟩ := Option.isSome_iff_exists.mp hs
    refine ⟨⟨r, t, m⟩, mem_classifyRows.mpr ⟨r, hr, ?_⟩, rfl⟩
    unfold classifyRow
    simp only [ht, hm]

/-- Timestamp used by concrete check data: 2025-03-01 06:30:00. -/
def wTs : Timestamp := ⟨⟨2025, 3, 1⟩, 6, 30, 0⟩

/-- A concrete breakfast spending row. -/
def wRow : Row := ⟨some wTs, "持卡人消费", some "紫荆园", 10⟩

theorem meal_period_window_witness :
    (∃ c ∈ classifyRows [wRow], c.row = wRow)
      ∧ mealIntervals.countP (fun iv => inInterval (minutesOfDay wTs) iv) = 1 :=
  ⟨(meal_period_window [wRow] wRow wTs (List.mem_singleton.mpr rfl) rfl).1.mpr (by decide),
    by decide⟩

/-- C6: the classifier is idempotent.  When it succeeds, re-running it on
its own output (the classified rows viewed again as a table) keeps every
row and reassigns the very same period to each. -/
theorem classifier_idempotent (rows : List Row) (cs : List CRow)
    (h : prepare_meal_period_data rows = (some cs, some mealLabels, none)) :
    prepare_meal_period_data (cs.map CRow.row) = (some cs, some mealLabels, none) := by
  unfold prepare_meal_period_data at h
  split_ifs at h with h1 h2
  · exact absurd h (by simp)
  · exact absurd h (by simp)
  · have hcs : classifyRows rows = cs := by
      have := congrArg (fun p => p.1) h
      simpa using this
    have hself : ∀ c ∈ cs, classifyRow c.row = some c := by
      intro c hc
      exact classifyRow_of_mem (hcs ▸ hc)
    have hmap : classifyRows (cs.map CRow.row) = cs := classifyRows_map_row cs hself
    have hcne : cs ≠ [] := fun hnil => h2 (hcs.trans hnil)
    have hp : parsedRows (cs.map CRow.row) ≠ [] := parsedRows_map_row_ne_nil cs hself hcne
    unfold prepare_meal_period_data
    rw [if_neg hp, if_neg (by rw [hmap]; exact hcne), hmap]

theorem classifier_idempotent_witness :
    prepare_meal_period_data ([(⟨wRow, wTs, Meal.breakfast⟩ : CRow)].map CRow.row)
      = (some [(⟨wRow, wTs, Meal.breakfast⟩ : CRow)], some mealLabels, none) :=
  classifier_idempotent [wRow] [⟨wRow, wTs, Meal.breakfast⟩] (by decide)

/-- C7: with a location column present, the preprocessor drops exactly the
rows whose location text contains a denylist token; without the column the
table passes through unchanged; in particular a row whose location contains
the e-commerce token 天猫 is removed whatever its event kind. -/
theorem preprocess_denylist_filter (rows : List Row) (r : Row) :
    (r ∈ preprocess_data true rows ↔
        r ∈ rows ∧ ∀ s, r.location = some s → locationBanned s = false)
    ∧ preprocess_data false rows = rows
    ∧ (∀ s, r.location = some s → strOccurs "天猫" s = true →
        r ∉ preprocess_data true rows) := by
  have hchar : r ∈ preprocess_data true rows ↔
      r ∈ rows ∧ ∀ s, r.location = some s → locationBanned s = false := by
    unfold preprocess_data
    rw [if_pos rfl, List.mem_filter]
    unfold keepRow
    cases hloc : r.location with
    | none => simp [hloc]
    | some s => simp [hloc]
  refine ⟨hchar, rfl, ?_⟩
  intro s hs hocc hmem
  have hban : locationBanned s = true := by
    simp [locationBanned, denylistTokens, hocc]
  have := (hchar.mp hmem).2 s hs
  rw [hban] at this
  exact Bool.noConfusion this

/-- A row whose location contains the e-commerce token. -/
def tmRow : Row := ⟨some wTs, "持卡人消费", some "天猫超市", 3⟩

theorem preprocess_denylist_filter_witness : tmRow ∉ preprocess_data true [tmRow] :=
  (preprocess_denylist_filter [tmRow] tmRow).2.2 "天猫超市" rfl (by decide)

/-- C10: a row with a missing location value is never dropped by the
preprocessor: the contains test with na set to false treats it as a
non-match. -/
theorem preprocess_keeps_missing_location (b : Bool) (rows : List Row) (r : Row)
    (h : r.location = none) : r ∈ preprocess_data b rows ↔ r ∈ rows := by
  cases b
  · simp [preprocess_data]
  · simp [preprocess_data, List.mem_filter, keepRow, h]

/-- A concrete spending row with a missing location. -/
def noLocRow : Row := ⟨some wTs, "持卡人消费", none, 2⟩

theorem preprocess_keeps_missing_location_witness :
    noLocRow ∈ preprocess_data true [noLocRow] :=
  (preprocess_keeps_missing_location true [noLocRow] noLocRow rfl).mpr
    (List.mem_singleton.mpr rfl)

/-! Per-meal aggregates (create_meal_period_chart, create_meal_count_chart,
create_meal_avg_chart). -/

/-- Sum of the 交易金额（元） column. -/
def amountSum (rows : List Row) : ℚ := (rows.map (fun r => r.amount)).sum

/-- Per-meal spending total: groupby 餐次 with sum. -/
def mealTotal (cs : List CRow) (m : Meal) : ℚ :=
  ((cs.filter (fun c => decide (c.meal = m))).map (fun c => c.row.amount)).sum

/-- The distinct (日期, 餐次) pairs left by drop_duplicates. -/
def visitKeys (cs : List CRow) : List (Date × Meal) :=
  (cs.map (fun c => (c.time.date, c.meal))).dedup

/-- Per-meal visit count: drop_duplicates on (日期, 餐次) then groupby size. -/
def mealVisitCount (cs : List CRow) (m : Meal) : Nat :=
  ((visitKeys cs).filter (fun k => decide (k.2 = m))).length

/-- counts.where(counts != 0): a zero count becomes missing (NaN). -/
def maskNonzero (n : Nat) : Option Nat := if n = 0 then none else some n

/-- Per-meal average: totals divided by the masked counts, then fillna(0).
Division by a masked (missing) count propagates the missing value, which
fillna turns into zero, so no division fault can occur. -/
def mealAvg (cs : List CRow) (m : Meal) : ℚ :=
  ((maskNonzero (mealVisitCount cs m)).map (fun n => mealTotal cs m / (n : ℚ))).getD 0

/-- C2: the per-meal average equals total over distinct-visit count when the
count is nonzero and is zero when the count is zero; the computation is a
total function, so no division error is possible. -/
theorem meal_avg_safe_division (rows : List Row) (m : Meal) :
    (mealVisitCount (classifyRows rows) m ≠ 0 →
        mealAvg (classifyRows rows) m
          = mealTotal (classifyRows rows) m / (mealVisitCount (classifyRows rows) m : ℚ))
    ∧ (mealVisitCount (classifyRows rows) m = 0 → mealAvg (classifyRows rows) m = 0) := by
  constructor <;> intro h <;> simp [mealAvg, maskNonzero, h]

/-- A second breakfast row on the same date: 2025-03-01 07:00, 10 yuan. -/
def wRow2 : Row := ⟨some ⟨⟨2025, 3, 1⟩, 7, 0, 0⟩, "持卡人消费", some "紫荆园", 10⟩

/-- Same visit, ten minutes later, 5 yuan. -/
def wRow3 : Row := ⟨some ⟨⟨2025, 3, 1⟩, 7, 10, 0⟩, "持卡人消费", some "紫荆园", 5⟩

theorem meal_avg_safe_division_witness :
    mealVisitCount (classifyRows [wRow2, wRow3]) Meal.breakfast = 1
      ∧ mealAvg (classifyRows [wRow2, wRow3]) Meal.breakfast = 15 := by
  have hrows : classifyRows [wRow2, wRow3]
      = [⟨wRow2, ⟨⟨2025, 3, 1⟩, 7, 0, 0⟩, Meal.breakfast⟩,
         ⟨wRow3, ⟨⟨2025, 3, 1⟩, 7, 10, 0⟩, Meal.breakfast⟩] := by decide
  have hc : mealVisitCount (classifyRows [wRow2, wRow3]) Meal.breakfast = 1 := by decide
  refine ⟨hc, ?_⟩
  rw [(meal_avg_safe_division [wRow2, wRow3] Meal.breakfast).1 (by decide), hc, hrows]
  norm_num [mealTotal, List.filter_cons, wRow2, wRow3]

/-! Location totals (main, step 3). -/

/-- Rows at one location. -/
def rowsAt (rows : List Row) (loc : String) : List Row :=
  rows.filter (fun r => decide (r.location = some loc))

/-- The distinct non-missing locations: pandas groupby silently drops rows
whose grouping key is missing. -/
def locationKeys (rows : List Row) : List String :=
  (rows.filterMap (fun r => r.location)).dedup

/-- groupby 交易地点 with sum of 交易金额（元）.  The sort by descending
value of the script only permutes the entries and does not affect sums, so
it is left out here. -/
def locationTotals (rows : List Row) : List (String × ℚ) :=
  (locationKeys rows).map (fun l => (l, amountSum (rowsAt rows l)))

lemma sum_map_add (keys : List String) (f g : String → ℚ) :
    (keys.map (fun l => f l + g l)).sum = (keys.map f).sum + (keys.map g).sum := by
  induction keys with
  | nil => simp
  | cons k ks ih => simp [ih]; ring

lemma sum_ite_notmem (l0 : String) (x : ℚ) (ks : List String) (h : l0 ∉ ks) :
    (ks.map (fun l => if l = l0 then x else 0)).sum = 0 := by
  induction ks with
  | nil => simp
  | cons k ks ih =>
    have hk : k ≠ l0 := fun hkl => h (hkl ▸ List.mem_cons_self k ks)
    have hks : l0 ∉ ks := fun hm => h (List.mem_cons_of_mem _ hm)
    simp [hk, ih hks]

lemma sum_ite_nodup (l0 : String) (x : ℚ) (keys : List String) (hnd : keys.Nodup)
    (hmem : l0 ∈ keys) : (keys.map (fun l => if l = l0 then x else 0)).sum = x := by
  induction keys with
  | nil => exact absurd hmem (List.not_mem_nil l0)
  | cons k ks ih =>
    rcases List.mem_cons.mp hmem with h | h
    · subst h
      have hns : l0 ∉ ks := (List.nodup_cons.mp hnd).1
      simp [sum_ite_notmem l0 x ks hns]
    · have hk : k ≠ l0 := fun hkl => (List.nodup_cons.mp hnd).1 (hkl ▸ h)
      simp [hk, ih (List.nodup_cons.mp hnd).2 h]

lemma locationTotals_sum_eq (keys : List String) (rows : List Row) (hnd : keys.Nodup)
    (hcov : ∀ r ∈ rows, ∀ l, r.location = some l → l ∈ keys) :
    (keys.map (fun l => amountSum (rowsAt rows l))).sum
      = amountSum (rows.filter (fun r => r.location.isSome)) := by
  induction rows with
  | nil => simp [rowsAt, amountSum]
  | cons r rs ih =>
    have ih' := ih (fun a ha l hl => hcov a (List.mem_cons_of_mem _ ha) l hl)
    cases hloc : r.location with
    | none =>
      have h1 : (fun l => amountSum (rowsAt (r :: rs) l)) = fun l => amountSum (rowsAt rs l) := by
        funext l
        simp [rowsAt, List.filter_cons, hloc]
      have h2 : (r :: rs).filter (fun r => r.location.isSome)
          = rs.filter (fun r => r.location.isSome) := by
        simp [List.filter_cons, hloc]
      rw [h1, h2, ih']
    | some l0 =>
      have hl0 : l0 ∈ keys := hcov r (List.mem_cons_self _ _) l0 hloc
      have h1 : (fun l => amountSum (rowsAt (r :: rs) l))
          = fun l => (if l = l0 then r.amount else 0) + amountSum (rowsAt rs l) := by
        funext l
        by_cases h : l = l0
        · subst h
          simp [rowsAt, List.filter_cons, hloc, amountSum]
        · have hne : r.location ≠ some l := by
            rw [hloc]
            intro hh
            exact h (Option.some_inj.mp hh).symm
          simp [rowsAt, List.filter_cons, amountSum, hne, h]
      have h2 : (r :: rs).filter (fun r => r.location.isSome)
          = r :: rs.filter (fun r => r.location.isSome) := by
        simp [List.filter_cons, hloc]
      rw [h1, sum_map_add, sum_ite_nodup l0 r.amount keys hnd hl0, ih', h2]
      simp [amountSum]

/-- C3 counterexample: a spending row with a missing location contributes to
the total spending but to no location group, so the conservation law as
stated fails on this input. -/
theorem location_totals_counterexample :
    ((locationTotals (spendingFilter [noLocRow])).map Prod.snd).sum
      ≠ amountSum (spendingFilter [noLocRow]) := by
  norm_num [locationTotals, locationKeys, spendingFilter, spendingEvents,
    noLocRow, rowsAt, amountSum]

/-- C3 amended: the sum of the per-location totals equals the sum of the
amounts of exactly those spending-kind rows that carry a location value. -/
theorem location_totals_conservation (rows : List Row) :
    ((locationTotals (spendingFilter rows)).map Prod.snd).sum
      = amountSum ((spendingFilter rows).filter (fun r => r.location.isSome)) := by
  unfold locationTotals
  rw [List.map_map]
  have hcomp : (Prod.snd ∘ fun l => (l, amountSum (rowsAt (spendingFilter rows) l)))
      = fun l => amountSum (rowsAt (spendingFilter rows) l) := rfl
  rw [hcomp]
  apply locationTotals_sum_eq
  · exact List.nodup_dedup _
  · intro r hr l hl
    unfold locationKeys
    exact List.mem_dedup.mpr (List.mem_filterMap.mpr ⟨r, hr, by rw [hl]⟩)

/-! Calendar arithmetic for date spans (datetime.date subtraction). -/

/-- Gregorian leap-year test. -/
def isLeapYear (y : Nat) : Bool := (y % 4 == 0 && y % 100 != 0) || y % 400 == 0

/-- Days preceding a month in a common year. -/
def daysBeforeMonthBase : Nat → Nat
  | 1 => 0
  | 2 => 31
  | 3 => 59
  | 4 => 90
  | 5 => 120
  | 6 => 151
  | 7 => 181
  | 8 => 212
  | 9 => 243
  | 10 => 273
  | 11 => 304
  | _ => 334

/-- Days preceding a month, with the leap-day adjustment. -/
def daysBeforeMonth (leap : Bool) (m : Nat) : Nat :=
  daysBeforeMonthBase m + (if leap && decide (3 ≤ m) then 1 else 0)

/-- Leap years strictly before a year. -/
def leapCountBefore (y : Nat) : Nat := (y - 1) / 4 + (y - 1) / 400 - (y - 1) / 100

/-- Day number of a date, so that differences of day numbers are the .days
value of date subtraction. -/
def dateOrdinal (d : Date) : Nat :=
  365 * (d.year - 1) + leapCountBefore d.year
    + daysBeforeMonth (isLeapYear d.year) d.month + (d.day - 1)

/-- Absolute second count of a timestamp, ordering timestamps as pandas
datetime comparison does. -/
def tsOrd (t : Timestamp) : Nat :=
  dateOrdinal t.date * 86400 + t.hour * 3600 + t.minute * 60 + t.second

/-- Minimum of a list of naturals (zero on the empty list, which the script
never reaches because it returns before computing a span). -/
def natMinList : List Nat → Nat
  | [] => 0
  | n :: t => t.foldl Nat.min n

/-- Maximum of a list of naturals. -/
def natMaxList : List Nat → Nat
  | [] => 0
  | n :: t => t.foldl Nat.max n

lemma foldl_min_le_init (t : List Nat) (n : Nat) : t.foldl Nat.min n ≤ n := by
  induction t generalizing n with
  | nil => exact Nat.le_refl n
  | cons a t ih => exact (ih (Nat.min n a)).trans (Nat.min_le_left n a)

lemma foldl_min_le_mem : ∀ (t : List Nat) (n x : Nat), x ∈ t → t.foldl Nat.min n ≤ x := by
  intro t
  induction t with
  | nil => intro n x h; exact absurd h (List.not_mem_nil x)
  | cons a t ih =>
    intro n x h
    rcases List.mem_cons.mp h with h | h
    · subst h
      exact (foldl_min_le_init t (Nat.min n x)).trans (Nat.min_le_right n x)
    · exact ih (Nat.min n a) x h

lemma le_foldl_max_init (t : List Nat) (n : Nat) : n ≤ t.foldl Nat.max n := by
  induction t generalizing n with
  | nil => exact Nat.le_refl n
  | cons a t ih => exact (Nat.le_max_left n a).trans (ih (Nat.max n a))

lemma le_foldl_max_mem : ∀ (t : List Nat) (n x : Nat), x ∈ t → x ≤ t.foldl Nat.max n := by
  intro t
  induction t with
  | nil => intro n x h; exact absurd h (List.not_mem_nil x)
  | cons a t ih =>
    intro n x h
    rcases List.mem_cons.mp h with h | h
    · subst h
      exact (Nat.le_max_right n x).trans (le_foldl_max_init t (Nat.max n x))
    · exact ih (Nat.max n a) x h

lemma natMinList_le {l : List Nat} {x : Nat} (h : x ∈ l) : natMinList l ≤ x := by
  cases l with
  | nil => exact absurd h (List.not_mem_nil x)
  | cons n t =>
    rcases List.mem_cons.mp h with h | h
    · exact h ▸ foldl_min_le_init t n
    · exact foldl_min_le_mem t n x h

lemma le_natMaxList {l : List Nat} {x : Nat} (h : x ∈ l) : x ≤ natMaxList l := by
  cases l with
  | nil => exact absurd h (List.not_mem_nil x)
  | cons n t =>
    rcases List.mem_cons.mp h with h | h
    · exact h ▸ le_foldl_max_init t n
    · exact le_foldl_max_mem t n x h

lemma foldl_min_const {t : List Nat} {a : Nat} (h : ∀ x ∈ t, x = a) :
    t.foldl Nat.min a = a := by
  induction t with
  | nil => rfl
  | cons b t ih =>
    rw [List.foldl_cons, h b (List.mem_cons_self b t),
      show Nat.min a a = a from by simp [Nat.min_def]]
    exact ih (fun x hx => h x (List.mem_cons_of_mem _ hx))

lemma foldl_max_const {t : List Nat} {a : Nat} (h : ∀ x ∈ t, x = a) :
    t.foldl Nat.max a = a := by
  induction t with
  | nil => rfl
  | cons b t ih =>
    rw [List.foldl_cons, h b (List.mem_cons_self b t),
      show Nat.max a a = a from by simp [Nat.max_def]]
    exact ih (fun x hx => h x (List.mem_cons_of_mem _ hx))

/-! Attendance rate (create_meal_attendance_chart). -/

/-- Total calendar days spanned by the parsed, un-period-filtered data:
latest date minus earliest date, plus one.  The total_days == 0 guard of
the script can never fire because this value is at least one. -/
def attendanceSpan (rows : List Row) : Nat :=
  natMaxList ((parsedRows rows).map (fun p => dateOrdinal p.2.date))
    - natMinList ((parsedRows rows).map (fun p => dateOrdinal p.2.date)) + 1

/-- Attendance rate of one period: distinct visit-days over the span, times
one hundred.  None models the two skip branches (nothing parseable, or
nothing inside the meal window). -/
def attendanceRate (rows : List Row) (m : Meal) : Option ℚ :=
  if parsedRows rows = [] then none
  else if classifyRows rows = [] then none
  else some ((mealVisitCount (classifyRows rows) m : ℚ) / (attendanceSpan rows : ℚ) * 100)

lemma mem_parsedRows_of_mem_classifyRows {rows : List Row} {c : CRow}
    (h : c ∈ classifyRows rows) : (c.row, c.time) ∈ parsedRows rows := by
  obtain ⟨a, ha, hfa⟩ := List.mem_filterMap.mp h
  obtain ⟨hrow, htime, -⟩ := classifyRow_eq_some hfa
  subst hrow
  exact List.mem_filterMap.mpr ⟨c.row, ha, by rw [htime]; rfl⟩

lemma nodup_all_eq_singleton {α : Type} {l : List α} {a : α} (hnd : l.Nodup)
    (hall : ∀ x ∈ l, x = a) (hmem : a ∈ l) : l = [a] := by
  cases l with
  | nil => exact absurd hmem (List.not_mem_nil a)
  | cons b t =>
    have hb : b = a := hall b (List.mem_cons_self b t)
    subst hb
    have ht : t = [] := by
      cases t with
      | nil => rfl
      | cons c u =>
        have hc : c = b := hall c (List.mem_cons_of_mem _ (List.mem_cons_self c u))
        exact absurd (hc ▸ List.mem_cons_self c u)
          (List.nodup_cons.mp hnd).1
    rw [ht]

/-- C4: when a rate is computed, it is the distinct-visit-day count over the
inclusive calendar-day span of the full parsed data, times one hundred; it
never exceeds one hundred percent while visit-days stay within the span;
and a dataset whose parsed rows all fall on one date, with at least one
classified transaction of the period, gets exactly one hundred percent. -/
theorem attendance_rate_formula (rows : List Row) (m : Meal)
    (hp : parsedRows rows ≠ []) (hc : classifyRows rows ≠ []) :
    attendanceRate rows m
        = some ((mealVisitCount (classifyRows rows) m : ℚ) / (attendanceSpan rows : ℚ) * 100)
    ∧ (mealVisitCount (classifyRows rows) m ≤ attendanceSpan rows →
        (mealVisitCount (classifyRows rows) m : ℚ) / (attendanceSpan rows : ℚ) * 100 ≤ 100)
    ∧ ((∀ p ∈ parsedRows rows, ∀ q ∈ parsedRows rows, p.2.date = q.2.date) →
        (∃ c ∈ classifyRows rows, c.meal = m) →
        attendanceRate rows m = some 100) := by
  have hspan1 : 1 ≤ attendanceSpan rows := Nat.le_add_left 1 _
  have hform : attendanceRate rows m
      = some ((mealVisitCount (classifyRows rows) m : ℚ) / (attendanceSpan rows : ℚ) * 100) := by
    unfold attendanceRate
    rw [if_neg hp, if_neg hc]
  refine ⟨hform, ?_, ?_⟩
  · intro hcount
    have h0 : (0 : ℚ) < (attendanceSpan rows : ℚ) := by
      exact_mod_cast Nat.lt_of_lt_of_le Nat.zero_lt_one hspan1
    have hdiv : (mealVisitCount (classifyRows rows) m : ℚ) / (attendanceSpan rows : ℚ) ≤ 1 := by
      rw [div_le_one h0]
      exact_mod_cast hcount
    calc (mealVisitCount (classifyRows rows) m : ℚ) / (attendanceSpan rows : ℚ) * 100
        ≤ 1 * 100 := by
          apply mul_le_mul_of_nonneg_right hdiv
          norm_num
      _ = 100 := by norm_num
  · rintro hone ⟨c0, hc0, hm0⟩
    have hp0 : (c0.row, c0.time) ∈ parsedRows rows := mem_parsedRows_of_mem_classifyRows hc0
    -- the span collapses to one day
    have hords : ∀ x ∈ (parsedRows rows).map (fun p => dateOrdinal p.2.date),
        x = dateOrdinal c0.time.date := by
      intro x hx
      obtain ⟨p, hpmem, hpx⟩ := List.mem_map.mp hx
      rw [← hpx, hone p hpmem (c0.row, c0.time) hp0]
    have hspan : attendanceSpan rows = 1 := by
      unfold attendanceSpan
      cases hml : (parsedRows rows).map (fun p => dateOrdinal p.2.date) with
      | nil =>
        exact absurd (List.map_eq_nil_iff.mp hml) hp
      | cons n t =>
        have hn : n = dateOrdinal c0.time.date :=
          hords n (by rw [hml]; exact List.mem_cons_self n t)
        have ht : ∀ x ∈ t, x = n := fun x hx =>
          (hords x (by rw [hml]; exact List.mem_cons_of_mem _ hx)).trans hn.symm
        show t.foldl Nat.max n - t.foldl Nat.min n + 1 = 1
        rw [foldl_min_const ht, foldl_max_const ht, Nat.sub_self]
    -- there is exactly one visit key for this period
    have hkey : ∀ k ∈ visitKeys (classifyRows rows), k.2 = m → k = (c0.time.date, m) := by
      intro k hk hk2
      obtain ⟨c, hcmem, hck⟩ := List.mem_map.mp (List.mem_dedup.mp hk)
      have hdate : c.time.date = c0.time.date :=
        hone (c.row, c.time) (mem_parsedRows_of_mem_classifyRows hcmem) (c0.row, c0.time) hp0
      rw [← hck] at hk2 ⊢
      rw [hdate]
      exact congrArg (Prod.mk c0.time.date) (show c.meal = m from hk2)
    have hnd : (visitKeys (classifyRows rows)).Nodup := by
      unfold visitKeys
      exact List.nodup_dedup _
    have hmem0 : (c0.time.date, m) ∈ (visitKeys (classifyRows rows)).filter
        (fun k => decide (k.2 = m)) := by
      rw [List.mem_filter]
      constructor
      · exact List.mem_dedup.mpr (List.mem_map.mpr ⟨c0, hc0, by rw [hm0]⟩)
      · simp
    have hsingle : (visitKeys (classifyRows rows)).filter (fun k => decide (k.2 = m))
        = [(c0.time.date, m)] :=
      nodup_all_eq_singleton (hnd.filter _)
        (fun k hk => hkey k (List.mem_filter.mp hk).1
          (by simpa using (List.mem_filter.mp hk).2)) hmem0
    have hcnt : mealVisitCount (classifyRows rows) m = 1 := by
      unfold mealVisitCount
      rw [hsingle]
      rfl
    rw [hform, hcnt, hspan]
    norm_num

theorem attendance_rate_formula_witness : attendanceRate [wRow] Meal.breakfast = some 100 :=
  (attendance_rate_formula [wRow] Meal.breakfast (by decide) (by decide)).2.2
    (by decide) ⟨⟨wRow, wTs, Meal.breakfast⟩, by decide, rfl⟩

/-! Data-file discovery (find_data_file). -/

/-- File extensions the resolver globs for. -/
inductive FileExt where
  | csv
  | xlsx
  | xls
  | other
deriving DecidableEq

/-- A directory entry: name, extension and modification time. -/
structure FileEntry where
  name : String
  ext : FileExt
  mtime : Nat
deriving DecidableEq

/-- Stable insertion into a sorted list: the new element goes in front of
the first element it does not come after. -/
def insertSorted (lt : α → α → Bool) (x : α) : List α → List α
  | [] => [x]
  | y :: ys => if lt y x then y :: insertSorted lt x ys else x :: y :: ys

/-- Stable sort with respect to a strict Bool order, as Python sorted is
stable: equal keys keep their original relative order. -/
def sortByLt (lt : α → α → Bool) : List α → List α
  | [] => []
  | x :: xs => insertSorted lt x (sortByLt lt xs)

/-- Strict newest-first order on entries: sorted by mtime, reverse=True. -/
def newerFirst (a b : FileEntry) : Bool := decide (b.mtime < a.mtime)

/-- sorted(candidates, key=mtime, reverse=True). -/
def sortNewest (l : List FileEntry) : List FileEntry := sortByLt newerFirst l

/-- The directory search of find_data_file: csv candidates first, otherwise
the concatenation of the sorted xlsx and sorted xls candidates, whose first
entry is taken; none models the FileNotFoundError. -/
def find_in_dir (entries : List FileEntry) : Option FileEntry :=
  match sortNewest (entries.filter (fun e => decide (e.ext = FileExt.csv))) with
  | f :: _ => some f
  | [] =>
    match sortNewest (entries.filter (fun e => decide (e.ext = FileExt.xlsx)))
        ++ sortNewest (entries.filter (fun e => decide (e.ext = FileExt.xls))) with
    | f :: _ => some f
    | [] => none

/-- The status of an explicitly supplied path argument. -/
inductive PathStat where
  | isFile
  | isDir (contents : List FileEntry)
  | missing
deriving DecidableEq

/-- What find_data_file produces. -/
inductive ResolveResult where
  | explicitFile
  | found (f : FileEntry)
  | noDataFile
deriving DecidableEq

/-- Lift an optional search result. -/
def liftSearch : Option FileEntry → ResolveResult
  | some f => ResolveResult.found f
  | none => ResolveResult.noDataFile

/-- find_data_file: an existing file path is used directly; a directory
path redirects the search; a path naming nothing falls through to a search
of the default directory, exactly as in the script where the nonexistent
branch simply does not return. -/
def find_data_file (arg : Option PathStat) (cwd : List FileEntry) : ResolveResult :=
  match arg with
  | some PathStat.isFile => ResolveResult.explicitFile
  | some (PathStat.isDir contents) => liftSearch (find_in_dir contents)
  | some PathStat.missing => liftSearch (find_in_dir cwd)
  | none => liftSearch (find_in_dir cwd)

lemma mem_insertSorted {lt : α → α → Bool} {x y : α} {l : List α} :
    y ∈ insertSorted lt x l ↔ y = x ∨ y ∈ l := by
  induction l with
  | nil => simp [insertSorted]
  | cons a t ih =>
    unfold insertSorted
    cases h : lt a x with
    | true =>
      simp only [h, if_true, List.mem_cons, ih]
      tauto
    | false => simp [h]

lemma insertSorted_ne_nil {lt : α → α → Bool} {x : α} {l : List α} :
    insertSorted lt x l ≠ [] := by
  cases l with
  | nil => simp [insertSorted]
  | cons a t =>
    unfold insertSorted
    cases h : lt a x <;> simp [h]

lemma sortByLt_eq_nil_iff {lt : α → α → Bool} {l : List α} :
    sortByLt lt l = [] ↔ l = [] := by
  cases l with
  | nil => simp [sortByLt]
  | cons a t =>
    simp only [sortByLt]
    exact ⟨fun h => absurd h insertSorted_ne_nil, fun h => absurd h (by simp)⟩

lemma mem_sortByLt {lt : α → α → Bool} {y : α} {l : List α} :
    y ∈ sortByLt lt l ↔ y ∈ l := by
  induction l with
  | nil => simp [sortByLt]
  | cons a t ih =>
    simp only [sortByLt, mem_insertSorted, ih, List.mem_cons]

/-- The head of the newest-first sort is an entry of maximal mtime. -/
lemma sortNewest_head_max :
    ∀ {l : List FileEntry} {f : FileEntry} {rest : List FileEntry},
      sortNewest l = f :: rest → f ∈ l ∧ ∀ e ∈ l, e.mtime ≤ f.mtime := by
  intro l
  induction l with
  | nil => intro f rest h; exact absurd h (by simp [sortNewest, sortByLt])
  | cons a t ih =>
    intro f rest h
    have hstep : sortNewest (a :: t) = insertSorted newerFirst a (sortNewest t) := rfl
    rw [hstep] at h
    cases hs : sortNewest t with
    | nil =>
      rw [hs] at h
      have ht : t = [] := sortByLt_eq_nil_iff.mp hs
      simp only [insertSorted] at h
      cases h
      subst ht
      exact ⟨List.mem_cons_self _ _, by simp⟩
    | cons g gs =>
      rw [hs] at h
      obtain ⟨hgmem, hgmax⟩ := ih hs
      unfold insertSorted at h
      cases hlt : newerFirst g a with
      | true =>
        rw [hlt] at h
        rw [if_pos rfl] at h
        have hga : a.mtime < g.mtime := by
          have := hlt
          unfold newerFirst at this
          exact of_decide_eq_true this
        cases h with
        | refl =>
          refine ⟨List.mem_cons_of_mem _ hgmem, ?_⟩
          intro e he
          rcases List.mem_cons.mp he with he | he
          · exact he ▸ Nat.le_of_lt hga
          · exact hgmax e he
      | false =>
        rw [hlt] at h
        rw [if_neg Bool.false_ne_true] at h
        have hag : g.mtime ≤ a.mtime := by
          have := hlt
          unfold newerFirst at this
          exact Nat.le_of_not_lt (of_decide_eq_false this)
        cases h with
        | refl =>
          refine ⟨List.mem_cons_self _ _, ?_⟩
          intro e he
          rcases List.mem_cons.mp he with he | he
          · exact he ▸ Nat.le_refl _
          · exact (hgmax e he).trans hag

lemma filter_ne_nil_of_mem {p : FileEntry → Bool} {entries : List FileEntry}
    {e : FileEntry} (he : e ∈ entries) (hp : p e = true) :
    entries.filter p ≠ [] := by
  intro hnil
  have : e ∈ entries.filter p := List.mem_filter.mpr ⟨he, hp⟩
  rw [hnil] at this
  exact List.not_mem_nil e this

lemma filter_head_spec {p : FileEntry → Bool} {entries : List FileEntry}
    {f : FileEntry} {rest : List FileEntry}
    (h : sortNewest (entries.filter p) = f :: rest) :
    f ∈ entries ∧ p f = true ∧ ∀ e ∈ entries, p e = true → e.mtime ≤ f.mtime := by
  obtain ⟨hmem, hmax⟩ := sortNewest_head_max h
  have hf := List.mem_filter.mp hmem
  exact ⟨hf.1, hf.2, fun e he hpe => hmax e (List.mem_filter.mpr ⟨he, hpe⟩)⟩

/-- C8 amended: the resolver returns the most recently modified csv when
any csv exists; with no csv it returns the most recently modified xlsx if
any xlsx exists, and only otherwise the most recently modified xls; it
reports the no-data-file error exactly when no file carries one of the
three extensions. -/
theorem find_in_dir_selection (entries : List FileEntry) :
    ((∃ e ∈ entries, e.ext = FileExt.csv) →
      ∃ f, find_in_dir entries = some f ∧ f ∈ entries ∧ f.ext = FileExt.csv
        ∧ ∀ e ∈ entries, e.ext = FileExt.csv → e.mtime ≤ f.mtime)
    ∧ ((∀ e ∈ entries, e.ext ≠ FileExt.csv) → (∃ e ∈ entries, e.ext = FileExt.xlsx) →
      ∃ f, find_in_dir entries = some f ∧ f ∈ entries ∧ f.ext = FileExt.xlsx
        ∧ ∀ e ∈ entries, e.ext = FileExt.xlsx → e.mtime ≤ f.mtime)
    ∧ ((∀ e ∈ entries, e.ext ≠ FileExt.csv) → (∀ e ∈ entries, e.ext ≠ FileExt.xlsx) →
        (∃ e ∈ entries, e.ext = FileExt.xls) →
      ∃ f, find_in_dir entries = some f ∧ f ∈ entries ∧ f.ext = FileExt.xls
        ∧ ∀ e ∈ entries, e.ext = FileExt.xls → e.mtime ≤ f.mtime)
    ∧ (find_in_dir entries = none ↔
        ∀ e ∈ entries, e.ext ≠ FileExt.csv ∧ e.ext ≠ FileExt.xlsx ∧ e.ext ≠ FileExt.xls) := by
  refine ⟨?_, ?_, ?_, ?_⟩
  · rintro ⟨e, he, hext⟩
    have hne : entries.filter (fun e => decide (e.ext = FileExt.csv)) ≠ [] :=
      filter_ne_nil_of_mem he (by simp [hext])
    cases hs : sortNewest (entries.filter (fun e => decide (e.ext = FileExt.csv))) with
    | nil => exact absurd (sortByLt_eq_nil_iff.mp hs) hne
    | cons f rest =>
      obtain ⟨hf1, hf2, hf3⟩ := filter_head_spec hs
      refine ⟨f, ?_, hf1, of_decide_eq_true hf2,
        fun e' he' hx => hf3 e' he' (by simp [hx])⟩
      unfold find_in_dir
      rw [hs]
  · intro hnocsv
    rintro ⟨e, he, hext⟩
    have hcsvnil : entries.filter (fun e => decide (e.ext = FileExt.csv)) = [] := by
      rw [List.filter_eq_nil_iff]
      intro a ha
      simp [hnocsv a ha]
    have hne : entries.filter (fun e => decide (e.ext = FileExt.xlsx)) ≠ [] :=
      filter_ne_nil_of_mem he (by simp [hext])
    cases hs : sortNewest (entries.filter (fun e => decide (e.ext = FileExt.xlsx))) with
    | nil => exact absurd (sortByLt_eq_nil_iff.mp hs) hne
    | cons f rest =>
      obtain ⟨hf1, hf2, hf3⟩ := filter_head_spec hs
      refine ⟨f, ?_, hf1, of_decide_eq_true hf2,
        fun e' he' hx => hf3 e' he' (by simp [hx])⟩
      unfold find_in_dir
      rw [hcsvnil, hs]
      rfl
  · intro hnocsv hnoxlsx
    rintro ⟨e, he, hext⟩
    have hcsvnil : entries.filter (fun e => decide (e.ext = FileExt.csv)) = [] := by
      rw [List.filter_eq_nil_iff]
      intro a ha
      simp [hnocsv a ha]
    have hxlsxnil : entries.filter (fun e => decide (e.ext = FileExt.xlsx)) = [] := by
      rw [List.filter_eq_nil_iff]
      intro a ha
      simp [hnoxlsx a ha]
    have hne : entries.filter (fun e => decide (e.ext = FileExt.xls)) ≠ [] :=
      filter_ne_nil_of_mem he (by simp [hext])
    cases hs : sortNewest (entries.filter (fun e => decide (e.ext = FileExt.xls))) with
    | nil => exact absurd (sortByLt_eq_nil_iff.mp hs) hne
    | cons f rest =>
      obtain ⟨hf1, hf2, hf3⟩ := filter_head_spec hs
      refine ⟨f, ?_, hf1, of_decide_eq_true hf2,
        fun e' he' hx => hf3 e' he' (by simp [hx])⟩
      unfold find_in_dir
      rw [hcsvnil, hxlsxnil, hs]
      rfl
  · constructor
    · intro hnone e he
      unfold find_in_dir at hnone
      refine ⟨?_, ?_, ?_⟩ <;> intro hext
      · have hne : entries.filter (fun e => decide (e.ext = FileExt.csv)) ≠ [] :=
          filter_ne_nil_of_mem he (by simp [hext])
        cases hs : sortNewest (entries.filter (fun e => decide (e.ext = FileExt.csv))) with
        | nil => exact absurd (sortByLt_eq_nil_iff.mp hs) hne
        | cons f rest => rw [hs] at hnone; exact Option.noConfusion hnone
      · cases hs : sortNewest (entries.filter (fun e => decide (e.ext = FileExt.csv))) with
        | cons f rest => rw [hs] at hnone; exact Option.noConfusion hnone
        | nil =>
          rw [hs] at hnone
          have hne : entries.filter (fun e => decide (e.ext = FileExt.xlsx)) ≠ [] :=
            filter_ne_nil_of_mem he (by simp [hext])
          cases hx : sortNewest (entries.filter (fun e => decide (e.ext = FileExt.xlsx))) with
          | nil => exact absurd (sortByLt_eq_nil_iff.mp hx) hne
          | cons f rest => rw [hx] at hnone; exact Option.noConfusion hnone
      · cases hs : sortNewest (entries.filter (fun e => decide (e.ext = FileExt.csv))) with
        | cons f rest => rw [hs] at hnone; exact Option.noConfusion hnone
        | nil =>
          rw [hs] at hnone
          have hne : entries.filter (fun e => decide (e.ext = FileExt.xls)) ≠ [] :=
            filter_ne_nil_of_mem he (by simp [hext])
          cases hx : sortNewest (entries.filter (fun e => decide (e.ext = FileExt.xls))) with
          | nil => exact absurd (sortByLt_eq_nil_iff.mp hx) hne
          | cons f rest =>
            rw [hx] at hnone
            cases hy : sortNewest (entries.filter (fun e => decide (e.ext = FileExt.xlsx))) with
            | nil => rw [hy] at hnone; exact Option.noConfusion hnone
            | cons g gs => rw [hy] at hnone; exact Option.noConfusion hnone
    · intro hall
      have h1 : entries.filter (fun e => decide (e.ext = FileExt.csv)) = [] := by
        rw [List.filter_eq_nil_iff]
        intro a ha
        simp [(hall a ha).1]
      have h2 : entries.filter (fun e => decide (e.ext = FileExt.xlsx)) = [] := by
        rw [List.filter_eq_nil_iff]
        intro a ha
        simp [(hall a ha).2.1]
      have h3 : entries.filter (fun e => decide (e.ext = FileExt.xls)) = [] := by
        rw [List.filter_eq_nil_iff]
        intro a ha
        simp [(hall a ha).2.2]
      unfold find_in_dir
      rw [h1, h2, h3]
      rfl

/-- An xlsx file, older than the xls file below. -/
def exA : FileEntry := ⟨"a.xlsx", FileExt.xlsx, 1⟩

/-- An xls file that is the most recently modified Excel file. -/
def exB : FileEntry := ⟨"b.xls", FileExt.xls, 5⟩

/-- A csv file. -/
def exC : FileEntry := ⟨"c.csv", FileExt.csv, 0⟩

/-- C8 counterexample: with no csv present, an older xlsx is preferred to a
newer xls, so the resolver does not return the most recently modified file
among the xlsx and xls candidates. -/
theorem find_in_dir_counterexample :
    find_in_dir [exA, exB] = some exA
      ∧ exB ∈ [exA, exB] ∧ exB.ext = FileExt.xls ∧ exA.mtime < exB.mtime := by
  refine ⟨?_, by simp, rfl, by decide⟩
  decide

theorem find_in_dir_selection_witness :
    ∃ f, find_in_dir [exC, exA] = some f ∧ f ∈ [exC, exA] ∧ f.ext = FileExt.csv
      ∧ ∀ e ∈ [exC, exA], e.ext = FileExt.csv → e.mtime ≤ f.mtime :=
  (find_in_dir_selection [exC, exA]).1 ⟨exC, by simp, rfl⟩

/-- C9: a supplied path that names neither an existing file nor a directory
is silently ignored: the resolver behaves exactly as if no path had been
supplied, searching the default directory, and fails only when that search
finds no data file. -/
theorem missing_path_falls_back (cwd : List FileEntry) :
    find_data_file (some PathStat.missing) cwd = find_data_file none cwd
    ∧ (find_data_file (some PathStat.missing) cwd = ResolveResult.noDataFile
        ↔ find_in_dir cwd = none) := by
  refine ⟨rfl, ?_⟩
  unfold find_data_file
  cases h : find_in_dir cwd with
  | none => simp [liftSearch]
  | some f => simp [liftSearch]

theorem missing_path_falls_back_witness :
    find_data_file (some PathStat.missing) [exC] = find_data_file none [exC] :=
  (missing_path_falls_back [exC]).1
/-! Yearly extremes table (create_yearly_extremes_table). -/

/-- Rows kept by the year filter: parseable timestamp in the target year. -/
def filterYear (y : Nat) (rows : List Row) : List Row :=
  rows.filter (fun r =>
    match r.time with
    | some t => decide (t.date.year = y)
    | none => false)

/-- Clock minutes of a timestamp including the fractional seconds part, as
the clock_minutes column. -/
def clockMinutesQ (t : Timestamp) : ℚ :=
  (t.hour : ℚ) * 60 + (t.minute : ℚ) + (t.second : ℚ) / 60

/-- One row of meal_summary.  The groupby on the categorical 餐次 column
keeps unobserved categories (observed defaults to false), so for every
observed date all four periods get a row; a (date, period) pair with no
transaction is an empty group whose first time is missing (NaT) and whose
amount sum is zero, hence the optional first-time field. -/
structure VisitRec where
  date : Date
  meal : Meal
  firstTime : Option Timestamp
  firstLocation : Option String
  totalAmount : ℚ
deriving DecidableEq

/-- The distinct observed dates. -/
def datesOf (cs : List CRow) : List Date := (cs.map (fun c => c.time.date)).dedup

/-- Date order for the groupby key sort. -/
def dateLtB (a b : Date) : Bool := decide (dateOrdinal a < dateOrdinal b)

/-- The materialized groupby keys: every observed date paired with all four
categories, dates ascending and periods in categorical order. -/
def allKeys (cs : List CRow) : List (Date × Meal) :=
  ((sortByLt dateLtB (datesOf cs)).map (fun d =>
    [(d, Meal.breakfast), (d, Meal.lunch), (d, Meal.dinner), (d, Meal.night)])).flatten

/-- The rows of one (日期, 餐次) group. -/
def groupRows (cs : List CRow) (k : Date × Meal) : List CRow :=
  cs.filter (fun c => decide ((c.time.date, c.meal) = k))

/-- Time order on classified rows, for df_sorted. -/
def timeLt (a b : CRow) : Bool := decide (tsOrd a.time < tsOrd b.time)

/-- The materialized row of an empty group: no first time, no location, and
the empty sum zero as total amount. -/
def emptyVisit (d : Date) (m : Meal) : VisitRec := ⟨d, m, none, none, 0⟩

/-- One summary row.  An empty group materializes with a missing first time
and total zero; a non-empty group is sorted by 交易时间, its first row
gives first_time, the first non-missing location gives first_location
(groupby first skips missing values per column), and the amounts are
summed. -/
def mkVisit (cs : List CRow) (k : Date × Meal) : VisitRec :=
  match sortByLt timeLt (groupRows cs k) with
  | [] => emptyVisit k.1 k.2
  | c :: rest => ⟨k.1, k.2, some c.time,
      ((c :: rest).filterMap (fun x => x.row.location)).head?,
      ((groupRows cs k).map (fun x => x.row.amount)).sum⟩

/-- meal_summary: one row per materialized (日期, 餐次) key, keys in the
sorted groupby order. -/
def mealSummary (cs : List CRow) : List VisitRec := (allKeys cs).map (mkVisit cs)

/-- The summary rows of the extremes table for a target year. -/
def extremeVisits (rows : List Row) (y : Nat) : List VisitRec :=
  mealSummary (classifyRows (filterYear y rows))

/-- One fold step of selection: keep the incumbent unless the candidate is
strictly better, so the first optimum encountered wins. -/
def pickStep (better : α → α → Bool) (best v : α) : α := if better v best then v else best

/-- Selection of the best element: sorting by a strict key and taking the
first row keeps, for a stable sort, the first element with optimal key,
which is what this fold computes; idxmax does the same for the maximum. -/
def pickBy (better : α → α → Bool) : List α → Option α
  | [] => none
  | x :: xs => some (xs.foldl (pickStep better) x)

/-- Strict lexicographic order on pairs of rationals. -/
def lexLtQ (a b : ℚ × ℚ) : Bool :=
  decide (a.1 < b.1) || (decide (a.1 = b.1) && decide (a.2 < b.2))

/-- Reflexive lexicographic comparison, for statements. -/
def lexLeQ (a b : ℚ × ℚ) : Prop := a.1 < b.1 ∨ (a.1 = b.1 ∧ a.2 ≤ b.2)

/-- Sort key (clock_minutes, first_time) of a row with a first time. -/
def clockKey (t : Timestamp) : ℚ × ℚ := (clockMinutesQ t, (tsOrd t : ℚ))

/-- Strictly earlier absolute first time; a missing time (NaT) sorts last,
so a row with a time strictly precedes every row without one. -/
def fmBetter (a b : VisitRec) : Bool :=
  match a.firstTime, b.firstTime with
  | some ta, some tb => decide (tsOrd ta < tsOrd tb)
  | some _, none => true
  | none, _ => false

/-- Strictly smaller (clock_minutes, first_time) key; rows with missing
keys (NaN from NaT) sort last. -/
def ebBetter (a b : VisitRec) : Bool :=
  match a.firstTime, b.firstTime with
  | some ta, some tb => lexLtQ (clockKey ta) (clockKey tb)
  | some _, none => true
  | none, _ => false

/-- Strictly larger (clock_minutes, first_time) key; missing keys still
sort last in the descending sort. -/
def lnBetter (a b : VisitRec) : Bool :=
  match a.firstTime, b.firstTime with
  | some ta, some tb => lexLtQ (clockKey tb) (clockKey ta)
  | some _, none => true
  | none, _ => false

/-- Strictly larger total amount.  The materialized empty rows take part
with their zero totals, exactly as idxmax sees them. -/
def meBetter (a b : VisitRec) : Bool := decide (b.totalAmount < a.totalAmount)

/-- pick_first_row over meal_summary: earliest absolute first time. -/
def firstMealPick (vs : List VisitRec) : Option VisitRec := pickBy fmBetter vs

/-- Earliest breakfast by (clock_minutes, first_time) ascending. -/
def earliestBreakfast (vs : List VisitRec) : Option VisitRec :=
  pickBy ebBetter (vs.filter (fun v => decide (v.meal = Meal.breakfast)))

/-- Latest late-snack by (clock_minutes, first_time) descending. -/
def latestNight (vs : List VisitRec) : Option VisitRec :=
  pickBy lnBetter (vs.filter (fun v => decide (v.meal = Meal.night)))

/-- idxmax on total_amount: first occurrence of the maximum. -/
def mostExpensive (vs : List VisitRec) : Option VisitRec := pickBy meBetter vs

/-- Two-digit zero padding. -/
def pad2 (n : Nat) : String := if n < 10 then "0" ++ toString n else toString n

/-- strftime with the %Y-%m-%d %H:%M:%S layout. -/
def timeString (t : Timestamp) : String :=
  toString t.date.year ++ "-" ++ pad2 t.date.month ++ "-" ++ pad2 t.date.day ++ " "
    ++ pad2 t.hour ++ ":" ++ pad2 t.minute ++ ":" ++ pad2 t.second

/-- Two-decimal amount formatting.  Exact cent amounts render identically
to the Python format; only amounts that are not whole cents could differ in
the rounding direction of the last digit. -/
def amount2dp (q : ℚ) : String :=
  (if q < 0 then "-" else "")
    ++ toString ((round (q * 100) : ℤ).natAbs / 100)
    ++ "." ++ pad2 ((round (q * 100) : ℤ).natAbs % 100)

/-- The fixed placeholder row. -/
def noRecordRow : List String := ["无记录", "无记录", "无记录"]

/-- format_row: placeholder when there is no row at all or when the row has
a missing first time (a materialized empty group); otherwise location (未知
when missing), two-decimal amount, and the formatted first time. -/
def formatRow : Option VisitRec → List String
  | none => noRecordRow
  | some v =>
    match v.firstTime with
    | none => noRecordRow
    | some t => [v.firstLocation.getD "未知", amount2dp v.totalAmount, timeString t]

/-- The four table rows of the extremes chart, none when the year filter or
the classifier leaves nothing. -/
def yearly_extremes_rows (rows : List Row) (y : Nat) : Option (List (List String)) :=
  if filterYear y rows = [] then none
  else if classifyRows (filterYear y rows) = [] then none
  else some [
    "刷的第一顿食堂" :: formatRow (firstMealPick (extremeVisits rows y)),
    "吃的最早的一顿早饭" :: formatRow (earliestBreakfast (extremeVisits rows y)),
    "吃的最晚的一顿夜宵" :: formatRow (latestNight (extremeVisits rows y)),
    "吃的最贵的一顿饭" :: formatRow (mostExpensive (extremeVisits rows y))]

lemma bool_of_not_true {b : Bool} (h : ¬ b = true) : b = false := by
  cases b
  · rfl
  · exact absurd rfl h

lemma foldl_pickStep_mem (better : α → α → Bool) :
    ∀ (xs : List α) (b : α), xs.foldl (pickStep better) b ∈ b :: xs := by
  intro xs
  induction xs with
  | nil => intro b; simp
  | cons v vs ih =>
    intro b
    rw [List.foldl_cons]
    rcases List.mem_cons.mp (ih (pickStep better b v)) with h | h
    · rw [h]
      unfold pickStep
      split
      · exact List.mem_cons_of_mem _ (List.mem_cons_self _ _)
      · exact List.mem_cons_self _ _
    · exact List.mem_cons_of_mem _ (List.mem_cons_of_mem _ h)

lemma pickBy_mem {better : α → α → Bool} {l : List α} {x : α}
    (h : pickBy better l = some x) : x ∈ l := by
  cases l with
  | nil => exact absurd h (by simp [pickBy])
  | cons a xs =>
    have hx : xs.foldl (pickStep better) a = x := by
      simpa [pickBy] using h
    exact hx ▸ foldl_pickStep_mem better xs a

lemma pickBy_eq_none {better : α → α → Bool} {l : List α} :
    pickBy better l = none ↔ l = [] := by
  cases l <;> simp [pickBy]

lemma foldl_pickStep_spec (better : α → α → Bool)
    (htrans : ∀ a b c, better a b = true → better b c = true → better a c = true)
    (hirr : ∀ a, better a a = false) :
    ∀ (xs : List α) (b : α),
      (∀ v ∈ xs, better v (xs.foldl (pickStep better) b) = false)
      ∧ (better (xs.foldl (pickStep better) b) b = true
          ∨ xs.foldl (pickStep better) b = b) := by
  intro xs
  induction xs with
  | nil => intro b; exact ⟨fun v hv => absurd hv (List.not_mem_nil v), Or.inr rfl⟩
  | cons v vs ih =>
    intro b
    by_cases hv : better v b = true
    · have hfold : (v :: vs).foldl (pickStep better) b = vs.foldl (pickStep better) v := by
        rw [List.foldl_cons]
        congr 1
        simp [pickStep, hv]
      obtain ⟨ih1, ih2⟩ := ih v
      constructor
      · intro w hw
        rw [hfold]
        rcases List.mem_cons.mp hw with hw | hw
        · subst hw
          rcases ih2 with h | h
          · cases hx : better w (vs.foldl (pickStep better) w) with
            | false => rfl
            | true =>
              have := htrans w _ w hx h
              rw [hirr w] at this
              exact Bool.noConfusion this
          · rw [h]
            exact hirr w
        · exact ih1 w hw
      · rw [hfold]
        rcases ih2 with h | h
        · exact Or.inl (htrans _ v b h hv)
        · exact Or.inl (by rw [h]; exact hv)
    · have hv' : better v b = false := bool_of_not_true hv
      have hfold : (v :: vs).foldl (pickStep better) b = vs.foldl (pickStep better) b := by
        rw [List.foldl_cons]
        congr 1
        simp [pickStep, hv']
      obtain ⟨ih1, ih2⟩ := ih b
      constructor
      · intro w hw
        rw [hfold]
        rcases List.mem_cons.mp hw with hw | hw
        · subst hw
          rcases ih2 with h | h
          · cases hx : better w (vs.foldl (pickStep better) b) with
            | false => rfl
            | true =>
              have := htrans w _ b hx h
              rw [hv'] at this
              exact Bool.noConfusion this
          · rw [h]
            exact hv'
        · exact ih1 w hw
      · rw [hfold]
        exact ih2

lemma pickBy_minimal (better : α → α → Bool)
    (htrans : ∀ a b c, better a b = true → better b c = true → better a c = true)
    (hirr : ∀ a, better a a = false)
    {l : List α} {x : α} (h : pickBy better l = some x) :
    ∀ v ∈ l, better v x = false := by
  cases l with
  | nil => exact absurd h (by simp [pickBy])
  | cons a xs =>
    have hx : xs.foldl (pickStep better) a = x := by
      simpa [pickBy] using h
    obtain ⟨h1, h2⟩ := foldl_pickStep_spec better htrans hirr xs a
    intro v hv
    rcases List.mem_cons.mp hv with hv | hv
    · subst hv
      rcases h2 with h2 | h2
      · rw [hx] at h2
        cases hb : better v x with
        | false => rfl
        | true =>
          have := htrans v x v hb h2
          rw [hirr v] at this
          exact Bool.noConfusion this
      · rw [← hx, h2]
        exact hirr v
    · rw [← hx]
      exact h1 v hv

lemma foldl_max_split (key : α → ℚ) :
    ∀ (xs : List α) (b : α), ∃ x,
      xs.foldl (pickStep (fun a c => decide (key c < key a))) b = x
      ∧ ((x = b ∧ ∀ v ∈ xs, key v ≤ key b)
        ∨ (∃ l1 l2, xs = l1 ++ x :: l2 ∧ key b < key x
            ∧ (∀ v ∈ l1, key v < key x) ∧ (∀ v ∈ l2, key v ≤ key x))) := by
  intro xs
  induction xs with
  | nil => intro b; exact ⟨b, rfl, Or.inl ⟨rfl, by simp⟩⟩
  | cons v vs ih =>
    intro b
    by_cases hv : key b < key v
    · have hstep : pickStep (fun a c => decide (key c < key a)) b v = v := by
        simp [pickStep, hv]
      obtain ⟨x, hx, hcase⟩ := ih v
      refine ⟨x, by rw [List.foldl_cons, hstep, hx], ?_⟩
      rcases hcase with ⟨hxb, hall⟩ | ⟨l1, l2, hsplit, hbx, hl1, hl2⟩
      · subst hxb
        exact Or.inr ⟨[], vs, rfl, hv, by simp, hall⟩
      · exact Or.inr ⟨v :: l1, l2, by rw [hsplit]; rfl, hv.trans hbx,
          fun w hw => (List.mem_cons.mp hw).elim (fun h => h ▸ hbx) (fun h => hl1 w h), hl2⟩
    · have hv' : key v ≤ key b := le_of_not_lt hv
      have hstep : pickStep (fun a c => decide (key c < key a)) b v = b := by
        simp [pickStep, hv]
      obtain ⟨x, hx, hcase⟩ := ih b
      refine ⟨x, by rw [List.foldl_cons, hstep, hx], ?_⟩
      rcases hcase with ⟨hxb, hall⟩ | ⟨l1, l2, hsplit, hbx, hl1, hl2⟩
      · subst hxb
        exact Or.inl ⟨rfl, fun w hw => (List.mem_cons.mp hw).elim
          (fun h => h ▸ hv') (fun h => hall w h)⟩
      · exact Or.inr ⟨v :: l1, l2, by rw [hsplit]; rfl, hbx,
          fun w hw => (List.mem_cons.mp hw).elim
            (fun h => h ▸ lt_of_le_of_lt hv' hbx) (fun h => hl1 w h), hl2⟩

/-- idxmax picks the first occurrence of the maximal total amount: strictly
smaller amounts before it, no larger amount after it. -/
lemma mostExpensive_split {vs : List VisitRec} {x : VisitRec}
    (h : mostExpensive vs = some x) :
    ∃ l1 l2, vs = l1 ++ x :: l2 ∧ (∀ v ∈ l1, v.totalAmount < x.totalAmount)
      ∧ ∀ v ∈ l2, v.totalAmount ≤ x.totalAmount := by
  cases vs with
  | nil => exact absurd h (by simp [mostExpensive, pickBy])
  | cons a xs =>
    have hx : xs.foldl (pickStep meBetter) a = x := by
      simpa [mostExpensive, pickBy] using h
    have hxkey : xs.foldl
        (pickStep (fun a c => decide (VisitRec.totalAmount c < VisitRec.totalAmount a))) a
        = x := hx
    obtain ⟨x', hx', hcase⟩ := foldl_max_split VisitRec.totalAmount xs a
    have hxx : x' = x := hx'.symm.trans hxkey
    subst hxx
    rcases hcase with ⟨hxa, hall⟩ | ⟨l1, l2, hsplit, hax, hl1, hl2⟩
    · subst hxa
      exact ⟨[], xs, rfl, by simp, hall⟩
    · exact ⟨a :: l1, l2, by rw [hsplit, List.cons_append], fun w hw => (List.mem_cons.mp hw).elim
        (fun hh => hh ▸ hax) (fun hh => hl1 w hh), hl2⟩

lemma lexLtQ_iff {a b : ℚ × ℚ} :
    lexLtQ a b = true ↔ a.1 < b.1 ∨ (a.1 = b.1 ∧ a.2 < b.2) := by
  simp [lexLtQ]

lemma lexLtQ_trans (a b c : ℚ × ℚ) (hab : lexLtQ a b = true) (hbc : lexLtQ b c = true) :
    lexLtQ a c = true := by
  rw [lexLtQ_iff] at *
  rcases hab with h | ⟨h1, h2⟩ <;> rcases hbc with g | ⟨g1, g2⟩
  · exact Or.inl (h.trans g)
  · exact Or.inl (g1 ▸ h)
  · exact Or.inl (h1 ▸ g)
  · exact Or.inr ⟨h1.trans g1, h2.trans g2⟩

lemma lexLtQ_irrefl (a : ℚ × ℚ) : lexLtQ a a = false := by
  simp [lexLtQ]

lemma lexLeQ_of_not_lt {a b : ℚ × ℚ} (h : lexLtQ a b = false) : lexLeQ b a := by
  have h' : ¬ (a.1 < b.1 ∨ (a.1 = b.1 ∧ a.2 < b.2)) := by
    rw [← lexLtQ_iff, h]
    simp
  push_neg at h'
  rcases lt_or_eq_of_le h'.1 with h1 | h1
  · exact Or.inl h1
  · exact Or.inr ⟨h1, h'.2 h1.symm⟩

lemma fmBetter_trans : ∀ a b c, fmBetter a b = true → fmBetter b c = true →
    fmBetter a c = true := by
  intro a b c hab hbc
  unfold fmBetter at hab hbc ⊢
  cases ha : a.firstTime with
  | none =>
    rw [ha] at hab
    exact absurd hab (by simp)
  | some ta =>
    cases hb : b.firstTime with
    | none =>
      rw [hb] at hbc
      exact absurd hbc (by simp)
    | some tb =>
      rw [ha, hb] at hab
      cases hc : c.firstTime with
      | none => rfl
      | some tc =>
        rw [hb, hc] at hbc
        simp only [decide_eq_true_eq] at hab hbc ⊢
        exact Nat.lt_trans hab hbc

lemma fmBetter_irrefl : ∀ a, fmBetter a a = false := by
  intro a
  unfold fmBetter
  cases ha : a.firstTime with
  | none => rfl
  | some ta => exact decide_eq_false (lt_irrefl _)

lemma ebBetter_trans : ∀ a b c, ebBetter a b = true → ebBetter b c = true →
    ebBetter a c = true := by
  intro a b c hab hbc
  unfold ebBetter at hab hbc ⊢
  cases ha : a.firstTime with
  | none =>
    rw [ha] at hab
    exact absurd hab (by simp)
  | some ta =>
    cases hb : b.firstTime with
    | none =>
      rw [hb] at hbc
      exact absurd hbc (by simp)
    | some tb =>
      rw [ha, hb] at hab
      cases hc : c.firstTime with
      | none => rfl
      | some tc =>
        rw [hb, hc] at hbc
        exact lexLtQ_trans _ _ _ hab hbc

lemma ebBetter_irrefl : ∀ a, ebBetter a a = false := by
  intro a
  unfold ebBetter
  cases ha : a.firstTime with
  | none => rfl
  | some ta => exact lexLtQ_irrefl _

lemma lnBetter_trans : ∀ a b c, lnBetter a b = true → lnBetter b c = true →
    lnBetter a c = true := by
  intro a b c hab hbc
  unfold lnBetter at hab hbc ⊢
  cases ha : a.firstTime with
  | none =>
    rw [ha] at hab
    exact absurd hab (by simp)
  | some ta =>
    cases hb : b.firstTime with
    | none =>
      rw [hb] at hbc
      exact absurd hbc (by simp)
    | some tb =>
      rw [ha, hb] at hab
      cases hc : c.firstTime with
      | none => rfl
      | some tc =>
        rw [hb, hc] at hbc
        exact lexLtQ_trans _ _ _ hbc hab

lemma lnBetter_irrefl : ∀ a, lnBetter a a = false := by
  intro a
  unfold lnBetter
  cases ha : a.firstTime with
  | none => rfl
  | some ta => exact lexLtQ_irrefl _

/-- A summary row of a materialized empty group carries the empty-sum total
of zero. -/
lemma mealSummary_empty_total {cs : List CRow} {v : VisitRec}
    (hv : v ∈ mealSummary cs) (hnone : v.firstTime = none) : v.totalAmount = 0 := by
  obtain ⟨k, hk, hmk⟩ := List.mem_map.mp hv
  unfold mkVisit at hmk
  split at hmk
  · rw [← hmk]
    rfl
  · rw [← hmk] at hnone
    simp at hnone

/-- Scenario data: a late-snack transaction at 20:00. -/
def lateRow1 : Row := ⟨some ⟨⟨2025, 3, 1⟩, 20, 0, 0⟩, "持卡人消费", some "紫荆园", 10⟩

/-- Scenario data: a transaction at 23:00, outside the meal window. -/
def lateRow2 : Row := ⟨some ⟨⟨2025, 3, 2⟩, 23, 0, 0⟩, "持卡人消费", some "桃李园", 8⟩

/-- The scenario table of the late-snack boundary check. -/
def scenarioRows : List Row := [lateRow1, lateRow2]

/-- The classified form of the 20:00 row. -/
def scenarioCRow : CRow := ⟨lateRow1, ⟨⟨2025, 3, 1⟩, 20, 0, 0⟩, Meal.night⟩

/-- The visit record the scenario must select as latest late-snack. -/
def scenarioVisit : VisitRec :=
  ⟨⟨2025, 3, 1⟩, Meal.night, some ⟨⟨2025, 3, 1⟩, 20, 0, 0⟩, some "紫荆园", 10⟩

lemma scenario_visits : extremeVisits scenarioRows 2025
    = [emptyVisit ⟨2025, 3, 1⟩ Meal.breakfast, emptyVisit ⟨2025, 3, 1⟩ Meal.lunch,
       emptyVisit ⟨2025, 3, 1⟩ Meal.dinner, scenarioVisit] := by
  have hc : classifyRows (filterYear 2025 scenarioRows) = [scenarioCRow] := by decide
  unfold extremeVisits
  rw [hc]
  have hk : allKeys [scenarioCRow]
      = [((⟨2025, 3, 1⟩ : Date), Meal.breakfast), ((⟨2025, 3, 1⟩ : Date), Meal.lunch),
         ((⟨2025, 3, 1⟩ : Date), Meal.dinner), ((⟨2025, 3, 1⟩ : Date), Meal.night)] := by
    decide
  unfold mealSummary
  rw [hk]
  have hg1 : groupRows [scenarioCRow] ((⟨2025, 3, 1⟩ : Date), Meal.breakfast) = [] := by decide
  have hg2 : groupRows [scenarioCRow] ((⟨2025, 3, 1⟩ : Date), Meal.lunch) = [] := by decide
  have hg3 : groupRows [scenarioCRow] ((⟨2025, 3, 1⟩ : Date), Meal.dinner) = [] := by decide
  have hg4 : groupRows [scenarioCRow] ((⟨2025, 3, 1⟩ : Date), Meal.night)
      = [scenarioCRow] := by decide
  simp only [List.map_cons, List.map_nil, mkVisit, hg1, hg2, hg3, hg4]
  norm_num [sortByLt, insertSorted, List.sum_cons, List.sum_nil,
    scenarioCRow, scenarioVisit, lateRow1]

lemma scenario_latest : latestNight (extremeVisits scenarioRows 2025) = some scenarioVisit := by
  rw [scenario_visits]
  rfl

/-- Counterexample data: the only visit of the year has a negative total. -/
def negRow : Row := ⟨some ⟨⟨2025, 3, 1⟩, 12, 0, 0⟩, "持卡人消费", some "紫荆园", -5⟩

/-- Its classified form. -/
def negCRow : CRow := ⟨negRow, ⟨⟨2025, 3, 1⟩, 12, 0, 0⟩, Meal.lunch⟩

/-- The one real visit of the counterexample table. -/
def negVisit : VisitRec :=
  ⟨⟨2025, 3, 1⟩, Meal.lunch, some ⟨⟨2025, 3, 1⟩, 12, 0, 0⟩, some "紫荆园", -5⟩

lemma neg_visits : extremeVisits [negRow] 2025
    = [emptyVisit ⟨2025, 3, 1⟩ Meal.breakfast, negVisit,
       emptyVisit ⟨2025, 3, 1⟩ Meal.dinner, emptyVisit ⟨2025, 3, 1⟩ Meal.night] := by
  have hc : classifyRows (filterYear 2025 [negRow]) = [negCRow] := by decide
  unfold extremeVisits
  rw [hc]
  have hk : allKeys [negCRow]
      = [((⟨2025, 3, 1⟩ : Date), Meal.breakfast), ((⟨2025, 3, 1⟩ : Date), Meal.lunch),
         ((⟨2025, 3, 1⟩ : Date), Meal.dinner), ((⟨2025, 3, 1⟩ : Date), Meal.night)] := by
    decide
  unfold mealSummary
  rw [hk]
  have hg1 : groupRows [negCRow] ((⟨2025, 3, 1⟩ : Date), Meal.breakfast) = [] := by decide
  have hg2 : groupRows [negCRow] ((⟨2025, 3, 1⟩ : Date), Meal.lunch) = [negCRow] := by decide
  have hg3 : groupRows [negCRow] ((⟨2025, 3, 1⟩ : Date), Meal.dinner) = [] := by decide
  have hg4 : groupRows [negCRow] ((⟨2025, 3, 1⟩ : Date), Meal.night) = [] := by decide
  simp only [List.map_cons, List.map_nil, mkVisit, hg1, hg2, hg3, hg4]
  norm_num [sortByLt, insertSorted, List.sum_cons, List.sum_nil,
    negCRow, negVisit, negRow]

/-- C5 counterexample: with one real visit whose total is negative, idxmax
runs over the materialized summary whose empty rows carry total zero, picks
the zero-total empty breakfast row, and the table shows the no-record
placeholder instead of the highest-total visit — so the claim that the
most-expensive selection returns the visit with the highest total amount is
false of the program. -/
theorem yearly_extremes_counterexample :
    negVisit ∈ extremeVisits [negRow] 2025
    ∧ (∀ w ∈ extremeVisits [negRow] 2025, w.firstTime ≠ none → w = negVisit)
    ∧ mostExpensive (extremeVisits [negRow] 2025)
        = some (emptyVisit ⟨2025, 3, 1⟩ Meal.breakfast)
    ∧ formatRow (mostExpensive (extremeVisits [negRow] 2025)) = noRecordRow := by
  rw [neg_visits]
  refine ⟨by decide, by decide, by decide, by decide⟩

/-- C5 amended: the selections run over the materialized summary, which for
every observed date contains a row for each of the four periods; rows of
empty groups have no first time and total zero.  The first-meal, breakfast
and late-snack picks are optimal among the rows that have a first time
(missing sort keys go last); the most-expensive pick is the first summary
row attaining the maximal total amount, which can be an empty zero-total
row when every real visit total is at most zero, and such a row renders the
fixed placeholder; a category whose rows all lack a first time renders the
placeholder; and in the boundary scenario the 23:00 transaction is dropped
at classification, so the 20:00 visit is selected as latest late-snack. -/
theorem yearly_extremes_selection (rows : List Row) (y : Nat) :
    (∀ v, firstMealPick (extremeVisits rows y) = some v →
        v ∈ extremeVisits rows y
          ∧ ∀ w ∈ extremeVisits rows y, ∀ tw, w.firstTime = some tw →
              ∃ tv, v.firstTime = some tv ∧ tsOrd tv ≤ tsOrd tw)
    ∧ (∀ v, earliestBreakfast (extremeVisits rows y) = some v →
        v ∈ extremeVisits rows y ∧ v.meal = Meal.breakfast
          ∧ ∀ w ∈ extremeVisits rows y, w.meal = Meal.breakfast →
              ∀ tw, w.firstTime = some tw →
                ∃ tv, v.firstTime = some tv ∧ lexLeQ (clockKey tv) (clockKey tw))
    ∧ (∀ v, latestNight (extremeVisits rows y) = some v →
        v ∈ extremeVisits rows y ∧ v.meal = Meal.night
          ∧ ∀ w ∈ extremeVisits rows y, w.meal = Meal.night →
              ∀ tw, w.firstTime = some tw →
                ∃ tv, v.firstTime = some tv ∧ lexLeQ (clockKey tw) (clockKey tv))
    ∧ (∀ v, mostExpensive (extremeVisits rows y) = some v →
        ∃ l1 l2, extremeVisits rows y = l1 ++ v :: l2
          ∧ (∀ w ∈ l1, w.totalAmount < v.totalAmount)
          ∧ ∀ w ∈ l2, w.totalAmount ≤ v.totalAmount)
    ∧ (∀ v ∈ extremeVisits rows y, v.firstTime = none → v.totalAmount = 0)
    ∧ (∀ v : VisitRec, v.firstTime = none → formatRow (some v) = noRecordRow)
    ∧ ((∀ w ∈ extremeVisits rows y, w.meal = Meal.breakfast → w.firstTime = none) →
        formatRow (earliestBreakfast (extremeVisits rows y)) = noRecordRow)
    ∧ ((∀ w ∈ extremeVisits rows y, w.meal = Meal.night → w.firstTime = none) →
        formatRow (latestNight (extremeVisits rows y)) = noRecordRow)
    ∧ classifyRow lateRow2 = none
    ∧ latestNight (extremeVisits scenarioRows 2025) = some scenarioVisit := by
  refine ⟨?_, ?_, ?_, ?_, ?_, ?_, ?_, ?_, by decide, scenario_latest⟩
  · intro v hv
    refine ⟨pickBy_mem hv, ?_⟩
    intro w hw tw htw
    have hmin := pickBy_minimal fmBetter fmBetter_trans fmBetter_irrefl hv w hw
    unfold fmBetter at hmin
    rw [htw] at hmin
    cases hvt : v.firstTime with
    | none =>
      rw [hvt] at hmin
      simp at hmin
    | some tv =>
      rw [hvt] at hmin
      exact ⟨tv, rfl, Nat.le_of_not_lt (of_decide_eq_false hmin)⟩
  · intro v hv
    have hf := List.mem_filter.mp (pickBy_mem hv)
    refine ⟨hf.1, of_decide_eq_true hf.2, ?_⟩
    intro w hw hwm tw htw
    have hwf : w ∈ (extremeVisits rows y).filter (fun v => decide (v.meal = Meal.breakfast)) :=
      List.mem_filter.mpr ⟨hw, by simp [hwm]⟩
    have hmin := pickBy_minimal ebBetter ebBetter_trans ebBetter_irrefl hv w hwf
    unfold ebBetter at hmin
    rw [htw] at hmin
    cases hvt : v.firstTime with
    | none =>
      rw [hvt] at hmin
      simp at hmin
    | some tv =>
      rw [hvt] at hmin
      exact ⟨tv, rfl, lexLeQ_of_not_lt hmin⟩
  · intro v hv
    have hf := List.mem_filter.mp (pickBy_mem hv)
    refine ⟨hf.1, of_decide_eq_true hf.2, ?_⟩
    intro w hw hwm tw htw
    have hwf : w ∈ (extremeVisits rows y).filter (fun v => decide (v.meal = Meal.night)) :=
      List.mem_filter.mpr ⟨hw, by simp [hwm]⟩
    have hmin := pickBy_minimal lnBetter lnBetter_trans lnBetter_irrefl hv w hwf
    unfold lnBetter at hmin
    rw [htw] at hmin
    cases hvt : v.firstTime with
    | none =>
      rw [hvt] at hmin
      simp at hmin
    | some tv =>
      rw [hvt] at hmin
      exact ⟨tv, rfl, lexLeQ_of_not_lt hmin⟩
  · intro v hv
    exact mostExpensive_split hv
  · intro v hv hnone
    exact mealSummary_empty_total hv hnone
  · intro v h
    simp [formatRow, h]
  · intro h
    cases hpick : earliestBreakfast (extremeVisits rows y) with
    | none => rfl
    | some v =>
      have hf := List.mem_filter.mp (pickBy_mem hpick)
      have hnone := h v hf.1 (of_decide_eq_true hf.2)
      simp [formatRow, hnone]
  · intro h
    cases hpick : latestNight (extremeVisits rows y) with
    | none => rfl
    | some v =>
      have hf := List.mem_filter.mp (pickBy_mem hpick)
      have hnone := h v hf.1 (of_decide_eq_true hf.2)
      simp [formatRow, hnone]

theorem yearly_extremes_selection_witness :
    scenarioVisit ∈ extremeVisits scenarioRows 2025
      ∧ scenarioVisit.meal = Meal.night := by
  have h := yearly_extremes_selection scenarioRows 2025
  have h3 := h.2.2.1 scenarioVisit h.2.2.2.2.2.2.2.2.2
  exact ⟨h3.1, h3.2.1⟩

end CanteenReport
